import Mathlib

/-!
Verification development for the OpenSCAD compile/evaluate pipeline
(src/func.cc, src/mainwin.cc, src/Preferences.h).

The C++ sources are shallowly embedded below.  Doubles are modelled as
rationals (`ℚ`), machine counters as `ℕ`, UTF-8 strings as lists of unicode
code points (the source iterates strings with `g_utf8_offset_to_pointer` /
`g_utf8_get_char`, i.e. per code point).  Functionality external to the
provided sources (the `Value` class API, the boost RNG, the CSG normalizer,
Qt widgets) is either modelled from the spec (with a doc comment saying so)
or taken as an explicit parameter of the embedding.
-/

namespace OpenSCADSpec

/-- Modelled from the spec (§3): the dynamic `Value` variant
{Undefined, Bool, Number, String(UTF-8), Vector}.  Numbers are modelled as
rationals, strings as lists of unicode code points. -/
inductive Value : Type where
  | undefined : Value
  | bool  : Bool → Value
  | num   : ℚ → Value
  | str   : List ℕ → Value
  | vec   : List Value → Value

/-- Modelled from the spec (§3): `Value::toVectorPtr()` — the vector payload
of a vector value; any non-vector value yields the empty vector. -/
def toVec : Value → List Value
  | .vec l => l
  | _ => []

/-- Modelled from the spec (§3): `Value::toDouble()` — the numeric payload of
a number value, `0` otherwise. -/
def toDouble : Value → ℚ
  | .num q => q
  | _ => 0

/-- `(unsigned int)` cast of a double as used for `num_returns_per_match` and
`index_col_num` in `builtin_search`: truncation toward zero, clamped at `0`
for the (unspecified) negative case. -/
def ratToUInt (q : ℚ) : ℕ := q.floor.toNat

/-! ## `search` — string overload (func.cc, `static Value::VectorPtr search`
over `str_utf8_wrapper` find/table). -/

/-- Inner loop of the string-string `search` overload: scan the table string
for one find character `c`, starting at glyph index `j` with `mc` matches so
far and accumulated `resultvec` `rv`.  Returns the final
`(matchCount, resultvec, firstIdx)`, where `firstIdx = some j` records the
`num_returns_per_match == 1` early `returnvec` push-and-break. -/
def strLoop (c nrpm : ℕ) : List ℕ → ℕ → ℕ → List Value → ℕ × List Value × Option ℕ
  | [], _, mc, rv => (mc, rv, none)
  | t :: ts, j, mc, rv =>
    if t = c then
      if nrpm = 1 then (mc + 1, rv, some j)
      else
        let rv := rv ++ [Value.num (j : ℚ)]
        if 1 < nrpm ∧ nrpm ≤ mc + 1 then (mc + 1, rv, none)
        else strLoop c nrpm ts (j + 1) (mc + 1) rv
    else strLoop c nrpm ts (j + 1) mc rv

/-- The string-string `search` overload: for each code point of `find`, scan
`tbl`; in mode `1` a match appends its index to the result directly (and
breaks), in modes `0` and `> 1` the per-element match list is appended as a
vector.  Nothing is appended for an unmatched element in mode 1. -/
def strSearch (tbl : List ℕ) (nrpm : ℕ) : List ℕ → List Value
  | [] => []
  | c :: cs =>
    let r := strLoop c nrpm tbl 0 0 []
    (match r.2.2 with
      | some j => [Value.num (j : ℚ)]
      | none => []) ++
    (if nrpm = 0 ∨ 1 < nrpm then [Value.vec r.2.1] else []) ++
    strSearch tbl nrpm cs

/-! ## `search` — row-table overload (func.cc, `static Value::VectorPtr search`
over find string and `Value::VectorPtr` table).  The per-row character
extraction `g_utf8_get_char(entryVec[index_col_num].toString().c_str())` uses
`Value::toString`, which is external to the provided sources; it is taken as
the parameter `cellChar`. -/

/-- Inner loop of the string/row-table overload.  `none` models the
`return Value::VectorPtr();` abort on a row shorter than
`index_col_num + 1`. -/
def tblLoop (cellChar : Value → ℕ) (c nrpm icn : ℕ) :
    List Value → ℕ → ℕ → List Value → Option (ℕ × List Value × Option ℕ)
  | [], _, mc, rv => some (mc, rv, none)
  | row :: rs, j, mc, rv =>
    if (toVec row).length ≤ icn then none
    else if cellChar ((toVec row).getD icn .undefined) = c then
      if nrpm = 1 then some (mc + 1, rv, some j)
      else
        let rv := rv ++ [Value.num (j : ℚ)]
        if 1 < nrpm ∧ nrpm ≤ mc + 1 then some (mc + 1, rv, none)
        else tblLoop cellChar c nrpm icn rs (j + 1) (mc + 1) rv
    else tblLoop cellChar c nrpm icn rs (j + 1) mc rv

/-- The string/row-table `search` overload; `none` propagates the
invalid-entry abort (the caller turns it into an empty result vector). -/
def tblSearch (cellChar : Value → ℕ) (tbl : List Value) (nrpm icn : ℕ) :
    List ℕ → Option (List Value)
  | [] => some []
  | c :: cs =>
    match tblLoop cellChar c nrpm icn tbl 0 0 [] with
    | none => none
    | some r =>
      match tblSearch cellChar tbl nrpm icn cs with
      | none => none
      | some rest =>
        some ((match r.2.2 with
            | some j => [Value.num (j : ℚ)]
            | none => []) ++
          (if nrpm = 0 ∨ 1 < nrpm then [Value.vec r.2.1] else []) ++ rest)

/-! ## `builtin_search` — number-find and vector-of-find-values paths
(func.cc, `Value builtin_search`).  `Value::operator==` is external to the
provided sources and is taken as the parameter `veq`. -/

/-- Row-match condition of `builtin_search`:
`(index_col_num == 0 && findThis == search_element) ||
 (index_col_num < search_element.toVectorPtr()->size() &&
  findThis == search_element.toVectorPtr()[index_col_num])`. -/
def rowMatch (veq : Value → Value → Bool) (icn : ℕ) (fv se : Value) : Bool :=
  (icn = 0 && veq fv se) ||
    (icn < (toVec se).length && veq fv ((toVec se).getD icn .undefined))

/-- Loop of the number-find path of `builtin_search`: all matches appended to
`returnvec`, breaking once `num_returns_per_match ≠ 0` matches are found. -/
def numLoop (veq : Value → Value → Bool) (fv : Value) (nrpm icn : ℕ) :
    List Value → ℕ → ℕ → List Value → List Value
  | [], _, _, rv => rv
  | se :: t, j, mc, rv =>
    if rowMatch veq icn fv se then
      let rv := rv ++ [Value.num (j : ℚ)]
      if nrpm ≠ 0 ∧ nrpm ≤ mc + 1 then rv
      else numLoop veq fv nrpm icn t (j + 1) (mc + 1) rv
    else numLoop veq fv nrpm icn t (j + 1) mc rv

/-- Inner loop of the vector-of-find-values path of `builtin_search`; same
break structure as the string overload, with the row-match condition. -/
def vecLoop (veq : Value → Value → Bool) (fv : Value) (nrpm icn : ℕ) :
    List Value → ℕ → ℕ → List Value → ℕ × List Value × Option ℕ
  | [], _, mc, rv => (mc, rv, none)
  | se :: t, j, mc, rv =>
    if rowMatch veq icn fv se then
      if nrpm = 1 then (mc + 1, rv, some j)
      else
        let rv := rv ++ [Value.num (j : ℚ)]
        if 1 < nrpm ∧ nrpm ≤ mc + 1 then (mc + 1, rv, none)
        else vecLoop veq fv nrpm icn t (j + 1) (mc + 1) rv
    else vecLoop veq fv nrpm icn t (j + 1) mc rv

/-- The vector-of-find-values path of `builtin_search`: per find value, scan
the table; mode 1 appends the first match index directly, or — special case —
appends the (empty) `resultvec` when there was no match; modes `0` and `> 1`
append the per-element `resultvec`. -/
def vecSearch (veq : Value → Value → Bool) (tbl : List Value) (nrpm icn : ℕ) :
    List Value → List Value
  | [] => []
  | fv :: fs =>
    let r := vecLoop veq fv nrpm icn tbl 0 0 []
    (match r.2.2 with
      | some j => [Value.num (j : ℚ)]
      | none => []) ++
    (if nrpm = 1 ∧ r.1 = 0 then [Value.vec r.2.1] else []) ++
    (if nrpm = 0 ∨ 1 < nrpm then [Value.vec r.2.1] else []) ++
    vecSearch veq tbl nrpm icn fs

/-- `Value builtin_search(...)` (func.cc): argument extraction, defaulting
`num_returns_per_match` to `1` and `index_col_num` to `0`, then dispatch on
the type of the find argument. -/
def builtin_search (veq : Value → Value → Bool) (cellChar : Value → ℕ)
    (args : List Value) : Value :=
  if args.length < 2 then .undefined
  else
    let findThis := args.getD 0 .undefined
    let searchTable := args.getD 1 .undefined
    let nrpm := if 2 < args.length then ratToUInt (toDouble (args.getD 2 .undefined)) else 1
    let icn := if 3 < args.length then ratToUInt (toDouble (args.getD 3 .undefined)) else 0
    match findThis with
    | .num q => .vec (numLoop veq (.num q) nrpm icn (toVec searchTable) 0 0 [])
    | .str f =>
      match searchTable with
      | .str t => .vec (strSearch t nrpm f)
      | _ => .vec ((tblSearch cellChar (toVec searchTable) nrpm icn f).getD [])
    | .vec fv => .vec (vecSearch veq (toVec searchTable) nrpm icn fv)
    | _ => .undefined

/-! ## `builtin_min` / `builtin_max` (func.cc).  The single-argument
nonempty-vector path uses `std::min_element` with `Value::operator<`, which
is external to the provided sources; it is taken as the parameter `vecMin`
(resp. `vecMax`). -/

/-- The diagnostics emitted by the built-in evaluator's argument checks:
`print_argCnt_warning` and `print_argConvert_warning` (func.cc). -/
inductive Warn : Type where
  | argCnt : Warn
  | argConvert : Warn
deriving DecidableEq

/-- The `for (i = 1; i < n; ++i)` loop of `builtin_min`: accumulate the
minimum over the remaining arguments, breaking to the `quit` label (`none`)
on any non-number argument. -/
def minLoop (val : ℚ) : List Value → Option ℚ
  | [] => some val
  | v :: t =>
    match v with
    | .num x => minLoop (if x < val then x else val) t
    | _ => none

/-- The corresponding loop of `builtin_max`. -/
def maxLoop (val : ℚ) : List Value → Option ℚ
  | [] => some val
  | v :: t =>
    match v with
    | .num x => maxLoop (if x > val then x else val) t
    | _ => none

/-- `Value builtin_min(...)` (func.cc): a single nonempty-vector argument is
reduced elementwise; otherwise the first argument must be a number and the
remaining arguments are folded, breaking on any non-number; every other
shape falls through to the `quit` label (undefined + conversion warning). -/
def builtin_min (vecMin : List Value → Value) (args : List Value) :
    Value × Option Warn :=
  match args with
  | [] => (.undefined, some .argCnt)
  | v0 :: rest =>
    match v0, rest with
    | .vec (x :: xs), [] => (vecMin (x :: xs), none)
    | .num val, _ =>
      match minLoop val rest with
      | some m => (.num m, none)
      | none => (.undefined, some .argConvert)
    | _, _ => (.undefined, some .argConvert)

/-- `Value builtin_max(...)` (func.cc), symmetric to `builtin_min`. -/
def builtin_max (vecMax : List Value → Value) (args : List Value) :
    Value × Option Warn :=
  match args with
  | [] => (.undefined, some .argCnt)
  | v0 :: rest =>
    match v0, rest with
    | .vec (x :: xs), [] => (vecMax (x :: xs), none)
    | .num val, _ =>
      match maxLoop val rest with
      | some m => (.num m, none)
      | none => (.undefined, some .argConvert)
    | _, _ => (.undefined, some .argConvert)

/-! ## `builtin_rands` (func.cc).  The boost mersenne-twister generators and
`uniform_real` distribution are external libraries; the generator state is an
abstract type `σ`, one draw is the parameter `sample`, and re-seeding the
deterministic generator from the hashed seed argument is the parameter
`seedFn`. -/

/-- A double as consumed by `builtin_rands`' range handling: finite value,
infinity of either sign, or NaN (needed for the `isinf`/`isnan` clamps). -/
inductive DVal : Type where
  | finite : ℚ → DVal
  | posInf : DVal
  | negInf : DVal
  | nan : DVal
deriving DecidableEq

/-- `-std::numeric_limits<double>::max() / 2` resp. its positive
counterpart: DBL_MAX = 2^1024 − 2^971, halved. -/
@[irreducible] def dblMaxHalf : ℚ := 2 ^ 1023 - 2 ^ 970

/-- The range-minimum clamp of `builtin_rands`: an infinite or NaN minimum is
reset to `-DBL_MAX/2`. -/
def clampMin : DVal → ℚ
  | .finite q => q
  | _ => -dblMaxHalf

/-- The range-maximum clamp of `builtin_rands`: an infinite or NaN maximum is
reset to `DBL_MAX/2`. -/
def clampMax : DVal → ℚ
  | .finite q => q
  | _ => dblMaxHalf

/-- The result-count computation of `builtin_rands`:
`fabs` of the third argument, an infinite/NaN count resets to 1, then
`boost_numeric_cast<size_t>` (truncation). -/
def randsCount : DVal → ℕ
  | .finite q => (|q|).floor.toNat
  | _ => 1

/-- Draw `n` samples from `uniform_real(mn, mx)`, threading the generator
state. -/
def sampleN {σ : Type} (sample : ℚ → ℚ → σ → ℚ × σ) (mn mx : ℚ) :
    ℕ → σ → List ℚ × σ
  | 0, s => ([], s)
  | n + 1, s =>
    let r := sample mn mx s
    let rest := sampleN sample mn mx n r.2
    (r.1 :: rest.1, rest.2)

/-- `Value builtin_rands(...)` (func.cc), for a 3- or 4-argument call with
numeric arguments `(v0, v1, v2[, v3])`: clamp non-finite endpoints, swap a
descending range, optionally re-seed the deterministic generator from the
seed argument, then either constant-fill (equal endpoints — boost does not
allow `min == max`) or draw from the chosen generator.  Returns the result
vector together with both generator states. -/
def builtin_rands {σ : Type} (sample : ℚ → ℚ → σ → ℚ × σ) (seedFn : DVal → σ)
    (detS lessS : σ) (v0 v1 v2 : DVal) (v3 : Option DVal) :
    Value × σ × σ :=
  let mn := clampMin v0
  let mx := clampMax v1
  let mn' := if mx < mn then mx else mn
  let mx' := if mx < mn then mn else mx
  let numresults := randsCount v2
  match v3 with
  | some sv =>
    let detS := seedFn sv
    if mn' = mx' then
      (.vec (List.replicate numresults (.num mn')), detS, lessS)
    else
      let r := sampleN sample mn' mx' numresults detS
      (.vec (r.1.map .num), r.2, lessS)
  | none =>
    if mn' = mx' then
      (.vec (List.replicate numresults (.num mn')), detS, lessS)
    else
      let r := sampleN sample mn' mx' numresults lessS
      (.vec (r.1.map .num), detS, r.2)

/-! ## `builtin_lookup` (func.cc): piecewise-linear table lookup. -/

/-- Modelled from the spec (§3): `Value::getVec2` — succeeds exactly on a
2-vector of numbers. -/
def getVec2 : Value → Option (ℚ × ℚ)
  | .vec [.num a, .num b] => some (a, b)
  | _ => none

/-- One iteration of `builtin_lookup`'s bracketing scan: an entry that fails
`getVec2` is skipped; otherwise the low candidate and then the high candidate
are updated exactly as in the source
(`this_p <= p && (this_p > low_p || low_p > p)` resp.
 `this_p >= p && (this_p < high_p || high_p < p)`). -/
def lookupStep (p : ℚ) (st : (ℚ × ℚ) × (ℚ × ℚ)) (e : Value) :
    (ℚ × ℚ) × (ℚ × ℚ) :=
  match getVec2 e with
  | none => st
  | some tpv =>
    (if tpv.1 ≤ p ∧ (st.1.1 < tpv.1 ∨ p < st.1.1) then tpv else st.1,
     if p ≤ tpv.1 ∧ (tpv.1 < st.2.1 ∨ st.2.1 < p) then tpv else st.2)

/-- `Value builtin_lookup(...)` (func.cc) for a finite numeric key and a
vector table: the first entry must be a (≥2)-vector parsing as a pair; the
remaining entries refine the bracketing `(low, high)` pair; finally clamp
below/above the bracketing keys or linearly interpolate. -/
def builtin_lookup (pv tv : Value) : Value :=
  match pv with
  | .num p =>
    (match tv with
     | .vec (e0 :: rest) =>
       if (toVec e0).length < 2 then .undefined
       else
         match getVec2 e0 with
         | none => .undefined
         | some lo =>
           let st := rest.foldl (lookupStep p) (lo, lo)
           if p ≤ st.1.1 then .num st.2.2
           else if st.2.1 ≤ p then .num st.1.2
           else
             .num (st.2.2 * ((p - st.1.1) / (st.2.1 - st.1.1)) +
               st.1.2 * (1 - (p - st.1.1) / (st.2.1 - st.1.1)))
     | _ => .undefined)
  | _ => .undefined

/-- The low-candidate update of `lookupStep`, on parsed entries. -/
def lowStep (p : ℚ) (low e : ℚ × ℚ) : ℚ × ℚ :=
  if e.1 ≤ p ∧ (low.1 < e.1 ∨ p < low.1) then e else low

/-- The high-candidate update of `lookupStep`, on parsed entries. -/
def highStep (p : ℚ) (high e : ℚ × ℚ) : ℚ × ℚ :=
  if p ≤ e.1 ∧ (e.1 < high.1 ∨ high.1 < p) then e else high

/-- The valid `(key, value)` entries of a lookup table, in order. -/
def entriesOf (tbl : List Value) : List (ℚ × ℚ) := tbl.filterMap getVec2

lemma foldl_lookupStep_split (p : ℚ) (l : List Value) :
    ∀ st, l.foldl (lookupStep p) st =
      ((entriesOf l).foldl (lowStep p) st.1,
       (entriesOf l).foldl (highStep p) st.2) := by
  induction l with
  | nil => intro st; rfl
  | cons e t ih =>
    intro st
    rw [List.foldl_cons]
    cases he : getVec2 e with
    | none =>
      rw [show lookupStep p st e = st by rw [lookupStep, he], ih st]
      simp only [entriesOf, List.filterMap_cons, he]
    | some tpv =>
      rw [show lookupStep p st e =
          (lowStep p st.1 tpv, highStep p st.2 tpv) by
        rw [lookupStep, he]; rfl, ih _]
      simp only [entriesOf, List.filterMap_cons, he]
      rfl

lemma lowFold_char (p : ℚ) : ∀ (l : List (ℚ × ℚ)) (st : ℚ × ℚ),
    (l.foldl (lowStep p) st = st ∨
      (l.foldl (lowStep p) st ∈ l ∧ (l.foldl (lowStep p) st).1 ≤ p)) ∧
    ((l.foldl (lowStep p) st).1 ≤ p →
      ∀ kv ∈ l, kv.1 ≤ p → kv.1 ≤ (l.foldl (lowStep p) st).1) ∧
    (¬ (l.foldl (lowStep p) st).1 ≤ p →
      l.foldl (lowStep p) st = st ∧ ∀ kv ∈ l, ¬ kv.1 ≤ p) ∧
    (st.1 ≤ p → st.1 ≤ (l.foldl (lowStep p) st).1) := by
  intro l
  induction l with
  | nil =>
    intro st
    exact ⟨Or.inl rfl, by simp, fun _ => ⟨rfl, by simp⟩, fun _ => le_refl _⟩
  | cons e t ih =>
    intro st
    rw [List.foldl_cons]
    by_cases hc : e.1 ≤ p ∧ (st.1 < e.1 ∨ p < st.1)
    · rw [show lowStep p st e = e from if_pos hc]
      obtain ⟨ihm, ihmax, ihnot, ihmono⟩ := ih e
      refine ⟨?_, ?_, ?_, ?_⟩
      · rcases ihm with h | ⟨hm, hp⟩
        · right
          rw [h]
          exact ⟨List.mem_cons_self e t, hc.1⟩
        · exact Or.inr ⟨List.mem_cons_of_mem _ hm, hp⟩
      · intro hr kv hkv hkvp
        rcases List.mem_cons.mp hkv with rfl | hkv
        · exact ihmono hc.1
        · exact ihmax hr kv hkv hkvp
      · intro hnr
        obtain ⟨req, _⟩ := ihnot hnr
        rw [req] at hnr
        exact absurd hc.1 hnr
      · intro hst
        rcases hc.2 with hlt | hgt
        · exact le_trans hlt.le (ihmono hc.1)
        · exact absurd hst (not_le.mpr hgt)
    · rw [show lowStep p st e = st from if_neg hc]
      obtain ⟨ihm, ihmax, ihnot, ihmono⟩ := ih st
      have hnc : e.1 ≤ p → e.1 ≤ st.1 ∧ st.1 ≤ p := by
        intro hep
        constructor
        · by_contra hlt
          exact hc ⟨hep, Or.inl (not_le.mp hlt)⟩
        · by_contra hgt
          exact hc ⟨hep, Or.inr (not_le.mp hgt)⟩
      refine ⟨?_, ?_, ?_, ?_⟩
      · rcases ihm with h | ⟨hm, hp⟩
        · exact Or.inl h
        · exact Or.inr ⟨List.mem_cons_of_mem _ hm, hp⟩
      · intro hr kv hkv hkvp
        rcases List.mem_cons.mp hkv with rfl | hkv
        · exact le_trans (hnc hkvp).1 (ihmono (hnc hkvp).2)
        · exact ihmax hr kv hkv hkvp
      · intro hnr
        obtain ⟨req, hall⟩ := ihnot hnr
        refine ⟨req, ?_⟩
        intro kv hkv
        rcases List.mem_cons.mp hkv with rfl | hkv
        · intro hkvp
          rw [req] at hnr
          exact hnr (hnc hkvp).2
        · exact hall kv hkv
      · exact ihmono

lemma highFold_char (p : ℚ) : ∀ (l : List (ℚ × ℚ)) (st : ℚ × ℚ),
    (l.foldl (highStep p) st = st ∨
      (l.foldl (highStep p) st ∈ l ∧ p ≤ (l.foldl (highStep p) st).1)) ∧
    (p ≤ (l.foldl (highStep p) st).1 →
      ∀ kv ∈ l, p ≤ kv.1 → (l.foldl (highStep p) st).1 ≤ kv.1) ∧
    (¬ p ≤ (l.foldl (highStep p) st).1 →
      l.foldl (highStep p) st = st ∧ ∀ kv ∈ l, ¬ p ≤ kv.1) ∧
    (p ≤ st.1 → (l.foldl (highStep p) st).1 ≤ st.1) := by
  intro l
  induction l with
  | nil =>
    intro st
    exact ⟨Or.inl rfl, by simp, fun _ => ⟨rfl, by simp⟩, fun _ => le_refl _⟩
  | cons e t ih =>
    intro st
    rw [List.foldl_cons]
    by_cases hc : p ≤ e.1 ∧ (e.1 < st.1 ∨ st.1 < p)
    · rw [show highStep p st e = e from if_pos hc]
      obtain ⟨ihm, ihmax, ihnot, ihmono⟩ := ih e
      refine ⟨?_, ?_, ?_, ?_⟩
      · rcases ihm with h | ⟨hm, hp⟩
        · right
          rw [h]
          exact ⟨List.mem_cons_self e t, hc.1⟩
        · exact Or.inr ⟨List.mem_cons_of_mem _ hm, hp⟩
      · intro hr kv hkv hkvp
        rcases List.mem_cons.mp hkv with rfl | hkv
        · exact ihmono hc.1
        · exact ihmax hr kv hkv hkvp
      · intro hnr
        obtain ⟨req, _⟩ := ihnot hnr
        rw [req] at hnr
        exact absurd hc.1 hnr
      · intro hst
        rcases hc.2 with hlt | hgt
        · exact le_trans (ihmono hc.1) hlt.le
        · exact absurd hst (not_le.mpr hgt)
    · rw [show highStep p st e = st from if_neg hc]
      obtain ⟨ihm, ihmax, ihnot, ihmono⟩ := ih st
      have hnc : p ≤ e.1 → st.1 ≤ e.1 ∧ p ≤ st.1 := by
        intro hep
        constructor
        · by_contra hlt
          exact hc ⟨hep, Or.inl (not_le.mp hlt)⟩
        · by_contra hgt
          exact hc ⟨hep, Or.inr (not_le.mp hgt)⟩
      refine ⟨?_, ?_, ?_, ?_⟩
      · rcases ihm with h | ⟨hm, hp⟩
        · exact Or.inl h
        · exact Or.inr ⟨List.mem_cons_of_mem _ hm, hp⟩
      · intro hr kv hkv hkvp
        rcases List.mem_cons.mp hkv with rfl | hkv
        · exact le_trans (ihmono (hnc hkvp).2) (hnc hkvp).1
        · exact ihmax hr kv hkv hkvp
      · intro hnr
        obtain ⟨req, hall⟩ := ihnot hnr
        refine ⟨req, ?_⟩
        intro kv hkv
        rcases List.mem_cons.mp hkv with rfl | hkv
        · intro hkvp
          rw [req] at hnr
          exact hnr (hnc hkvp).2
        · exact hall kv hkv
      · exact ihmono

lemma mem_eq_of_nodup_keys : ∀ {l : List (ℚ × ℚ)},
    (l.map Prod.fst).Nodup → ∀ {a b : ℚ × ℚ}, a ∈ l → b ∈ l → a.1 = b.1 →
      a = b := by
  intro l
  induction l with
  | nil => intro _ a b ha; exact absurd ha (List.not_mem_nil a)
  | cons c t ih =>
    intro h a b ha hb hfst
    rw [List.map_cons, List.nodup_cons] at h
    rcases List.mem_cons.mp ha with ha1 | ha2 <;>
      rcases List.mem_cons.mp hb with hb1 | hb2
    · rw [ha1, hb1]
    · exfalso
      apply h.1
      rw [← ha1, hfst]
      exact List.mem_map_of_mem Prod.fst hb2
    · exfalso
      apply h.1
      rw [← hb1, ← hfst]
      exact List.mem_map_of_mem Prod.fst ha2
    · exact ih h.2 ha2 hb2 hfst

lemma getVec2_shape {e : Value} {x : ℚ × ℚ} (h : getVec2 e = some x) :
    e = Value.vec [Value.num x.1, Value.num x.2] := by
  unfold getVec2 at h
  split at h
  · cases h; rfl
  · cases h

lemma builtin_lookup_eval (p a b : ℚ) (rest : List Value) :
    builtin_lookup (.num p) (.vec (Value.vec [Value.num a, Value.num b] :: rest)) =
      (if p ≤ ((entriesOf rest).foldl (lowStep p) (a, b)).1 then
        Value.num ((entriesOf rest).foldl (highStep p) (a, b)).2
      else if ((entriesOf rest).foldl (highStep p) (a, b)).1 ≤ p then
        Value.num ((entriesOf rest).foldl (lowStep p) (a, b)).2
      else
        Value.num
          (((entriesOf rest).foldl (highStep p) (a, b)).2 *
            ((p - ((entriesOf rest).foldl (lowStep p) (a, b)).1) /
              (((entriesOf rest).foldl (highStep p) (a, b)).1 -
                ((entriesOf rest).foldl (lowStep p) (a, b)).1)) +
          ((entriesOf rest).foldl (lowStep p) (a, b)).2 *
            (1 - (p - ((entriesOf rest).foldl (lowStep p) (a, b)).1) /
              (((entriesOf rest).foldl (highStep p) (a, b)).1 -
                ((entriesOf rest).foldl (lowStep p) (a, b)).1)))) := by
  have h := foldl_lookupStep_split p rest ((a, b), (a, b))
  show (if p ≤ (rest.foldl (lookupStep p) ((a, b), (a, b))).1.1 then
      Value.num (rest.foldl (lookupStep p) ((a, b), (a, b))).2.2
    else if (rest.foldl (lookupStep p) ((a, b), (a, b))).2.1 ≤ p then
      Value.num (rest.foldl (lookupStep p) ((a, b), (a, b))).1.2
    else
      Value.num
        ((rest.foldl (lookupStep p) ((a, b), (a, b))).2.2 *
          ((p - (rest.foldl (lookupStep p) ((a, b), (a, b))).1.1) /
            ((rest.foldl (lookupStep p) ((a, b), (a, b))).2.1 -
              (rest.foldl (lookupStep p) ((a, b), (a, b))).1.1)) +
        (rest.foldl (lookupStep p) ((a, b), (a, b))).1.2 *
          (1 - (p - (rest.foldl (lookupStep p) ((a, b), (a, b))).1.1) /
            ((rest.foldl (lookupStep p) ((a, b), (a, b))).2.1 -
              (rest.foldl (lookupStep p) ((a, b), (a, b))).1.1)))) = _
  rw [h]

lemma entriesOf_cons_valid {e0 : Value} {a0 b0 : ℚ} (rest : List Value)
    (hE0 : getVec2 e0 = some (a0, b0)) :
    entriesOf (e0 :: rest) = (a0, b0) :: entriesOf rest := by
  simp only [entriesOf, List.filterMap_cons, hE0]

lemma lookup_interior (p klo vlo khi vhi a0 b0 : ℚ) (e0 : Value)
    (rest : List Value) (hE0 : getVec2 e0 = some (a0, b0))
    (hloMem : (klo, vlo) ∈ entriesOf (e0 :: rest))
    (hhiMem : (khi, vhi) ∈ entriesOf (e0 :: rest))
    (hlop : klo < p) (hphi : p < khi)
    (htight : ∀ kv ∈ entriesOf (e0 :: rest), kv.1 ≤ klo ∨ khi ≤ kv.1)
    (hnd : ((entriesOf (e0 :: rest)).map Prod.fst).Nodup) :
    builtin_lookup (.num p) (.vec (e0 :: rest)) =
      .num (vhi * ((p - klo) / (khi - klo)) +
        vlo * (1 - (p - klo) / (khi - klo))) := by
  have hent := entriesOf_cons_valid rest hE0
  obtain ⟨lm, lmax, lnot, lmono⟩ := lowFold_char p (entriesOf rest) (a0, b0)
  obtain ⟨hm, hmax, hnot, hmono⟩ := highFold_char p (entriesOf rest) (a0, b0)
  set L := (entriesOf rest).foldl (lowStep p) (a0, b0) with hLdef
  set H := (entriesOf rest).foldl (highStep p) (a0, b0) with hHdef
  have hLmem : L ∈ entriesOf (e0 :: rest) := by
    rw [hent]
    rcases lm with h | ⟨h, _⟩
    · rw [h]; exact List.mem_cons_self _ _
    · exact List.mem_cons_of_mem _ h
  have hHmem : H ∈ entriesOf (e0 :: rest) := by
    rw [hent]
    rcases hm with h | ⟨h, _⟩
    · rw [h]; exact List.mem_cons_self _ _
    · exact List.mem_cons_of_mem _ h
  have hloMem' : (klo, vlo) ∈ (a0, b0) :: entriesOf rest := by
    rw [← hent]; exact hloMem
  have hhiMem' : (khi, vhi) ∈ (a0, b0) :: entriesOf rest := by
    rw [← hent]; exact hhiMem
  have hLle : L.1 ≤ p := by
    by_contra hn
    obtain ⟨req, hall⟩ := lnot hn
    rcases List.mem_cons.mp hloMem' with h | h
    · rw [req] at hn
      exact hn (show (a0, b0).1 ≤ p by rw [← h]; exact hlop.le)
    · exact (hall _ h) hlop.le
  have hkloL : klo ≤ L.1 := by
    rcases List.mem_cons.mp hloMem' with h | h
    · have h1 : (a0, b0).1 ≤ p := by rw [← h]; exact hlop.le
      have h2 := lmono h1
      rw [← h] at h2
      exact h2
    · exact lmax hLle _ h hlop.le
  have hLklo : L.1 ≤ klo := by
    rcases htight L hLmem with h | h
    · exact h
    · exact absurd hphi (not_lt.mpr (le_trans h hLle))
  have hLeq : L = (klo, vlo) :=
    mem_eq_of_nodup_keys hnd hLmem hloMem (le_antisymm hLklo hkloL)
  have hHge : p ≤ H.1 := by
    by_contra hn
    obtain ⟨req, hall⟩ := hnot hn
    rcases List.mem_cons.mp hhiMem' with h | h
    · rw [req] at hn
      exact hn (show p ≤ (a0, b0).1 by rw [← h]; exact hphi.le)
    · exact (hall _ h) hphi.le
  have hkhiH : H.1 ≤ khi := by
    rcases List.mem_cons.mp hhiMem' with h | h
    · have h1 : p ≤ (a0, b0).1 := by rw [← h]; exact hphi.le
      have h2 := hmono h1
      rw [← h] at h2
      exact h2
    · exact hmax hHge _ h hphi.le
  have hHkhi : khi ≤ H.1 := by
    rcases htight H hHmem with h | h
    · exact absurd hlop (not_lt.mpr (le_trans hHge h))
    · exact h
  have hHeq : H = (khi, vhi) :=
    mem_eq_of_nodup_keys hnd hHmem hhiMem (le_antisymm hkhiH hHkhi)
  obtain rfl := getVec2_shape hE0
  rw [builtin_lookup_eval, ← hLdef, ← hHdef, hLeq, hHeq,
    if_neg (not_le.mpr hlop), if_neg (not_le.mpr hphi)]

lemma lookup_below (p klo vlo a0 b0 : ℚ) (e0 : Value) (rest : List Value)
    (hE0 : getVec2 e0 = some (a0, b0))
    (hloMem : (klo, vlo) ∈ entriesOf (e0 :: rest))
    (hmin : ∀ kv ∈ entriesOf (e0 :: rest), klo ≤ kv.1) (hp : p < klo)
    (hnd : ((entriesOf (e0 :: rest)).map Prod.fst).Nodup) :
    builtin_lookup (.num p) (.vec (e0 :: rest)) = .num vlo := by
  have hent := entriesOf_cons_valid rest hE0
  obtain ⟨lm, lmax, lnot, lmono⟩ := lowFold_char p (entriesOf rest) (a0, b0)
  obtain ⟨hm, hmax, hnot, hmono⟩ := highFold_char p (entriesOf rest) (a0, b0)
  set L := (entriesOf rest).foldl (lowStep p) (a0, b0) with hLdef
  set H := (entriesOf rest).foldl (highStep p) (a0, b0) with hHdef
  have hLmem : L ∈ entriesOf (e0 :: rest) := by
    rw [hent]
    rcases lm with h | ⟨h, _⟩
    · rw [h]; exact List.mem_cons_self _ _
    · exact List.mem_cons_of_mem _ h
  have hHmem : H ∈ entriesOf (e0 :: rest) := by
    rw [hent]
    rcases hm with h | ⟨h, _⟩
    · rw [h]; exact List.mem_cons_self _ _
    · exact List.mem_cons_of_mem _ h
  have hloMem' : (klo, vlo) ∈ (a0, b0) :: entriesOf rest := by
    rw [← hent]; exact hloMem
  have hLgt : p < L.1 := lt_of_lt_of_le hp (hmin L hLmem)
  have hHge : p ≤ H.1 := le_trans hp.le (hmin H hHmem)
  have hHklo : H.1 ≤ klo := by
    rcases List.mem_cons.mp hloMem' with h | h
    · have h1 : p ≤ (a0, b0).1 := by rw [← h]; exact hp.le
      have h2 := hmono h1
      rw [← h] at h2
      exact h2
    · exact hmax hHge _ h hp.le
  have hkloH : klo ≤ H.1 := hmin H hHmem
  have hHeq : H = (klo, vlo) :=
    mem_eq_of_nodup_keys hnd hHmem hloMem (le_antisymm hHklo hkloH)
  obtain rfl := getVec2_shape hE0
  rw [builtin_lookup_eval, ← hLdef, ← hHdef, if_pos hLgt.le, hHeq]

lemma lookup_above (p khi vhi a0 b0 : ℚ) (e0 : Value) (rest : List Value)
    (hE0 : getVec2 e0 = some (a0, b0))
    (hhiMem : (khi, vhi) ∈ entriesOf (e0 :: rest))
    (hmaxk : ∀ kv ∈ entriesOf (e0 :: rest), kv.1 ≤ khi) (hp : khi < p)
    (hnd : ((entriesOf (e0 :: rest)).map Prod.fst).Nodup) :
    builtin_lookup (.num p) (.vec (e0 :: rest)) = .num vhi := by
  have hent := entriesOf_cons_valid rest hE0
  obtain ⟨lm, lmax, lnot, lmono⟩ := lowFold_char p (entriesOf rest) (a0, b0)
  obtain ⟨hm, hmax, hnot, hmono⟩ := highFold_char p (entriesOf rest) (a0, b0)
  set L := (entriesOf rest).foldl (lowStep p) (a0, b0) with hLdef
  set H := (entriesOf rest).foldl (highStep p) (a0, b0) with hHdef
  have hLmem : L ∈ entriesOf (e0 :: rest) := by
    rw [hent]
    rcases lm with h | ⟨h, _⟩
    · rw [h]; exact List.mem_cons_self _ _
    · exact List.mem_cons_of_mem _ h
  have hHmem : H ∈ entriesOf (e0 :: rest) := by
    rw [hent]
    rcases hm with h | ⟨h, _⟩
    · rw [h]; exact List.mem_cons_self _ _
    · exact List.mem_cons_of_mem _ h
  have hhiMem' : (khi, vhi) ∈ (a0, b0) :: entriesOf rest := by
    rw [← hent]; exact hhiMem
  have hLle : L.1 ≤ p := le_trans (hmaxk L hLmem) hp.le
  have hLkhi : khi ≤ L.1 := by
    rcases List.mem_cons.mp hhiMem' with h | h
    · have h1 : (a0, b0).1 ≤ p := by rw [← h]; exact hp.le
      have h2 := lmono h1
      rw [← h] at h2
      exact h2
    · exact lmax hLle _ h hp.le
  have hkhiL : L.1 ≤ khi := hmaxk L hLmem
  have hLeq : L = (khi, vhi) :=
    mem_eq_of_nodup_keys hnd hLmem hhiMem (le_antisymm hkhiL hLkhi)
  have hHlt : H.1 < p := lt_of_le_of_lt (hmaxk H hHmem) hp
  obtain rfl := getVec2_shape hE0
  rw [builtin_lookup_eval, ← hLdef, ← hHdef, if_neg (not_le.mpr ?hcond),
    if_pos hHlt.le, hLeq]
  case hcond => exact lt_of_le_of_lt hkhiL hp

/-- **C5.** `lookup(p, table)` with a finite key: (1) if `p` lies strictly
between the tightest bracketing pair of table keys, the result is the linear
interpolation between that pair's values; (2) if `p` lies below every table
key the result is the value at the smallest key, and (3) above every table
key the value at the largest key; (4) `lookup(5, [[0,0],[10,10]])`
returns `5`. -/
theorem C5_theorem :
    (∀ (p klo vlo khi vhi a0 b0 : ℚ) (e0 : Value) (rest : List Value),
      getVec2 e0 = some (a0, b0) →
      (klo, vlo) ∈ entriesOf (e0 :: rest) →
      (khi, vhi) ∈ entriesOf (e0 :: rest) →
      klo < p → p < khi →
      (∀ kv ∈ entriesOf (e0 :: rest), kv.1 ≤ klo ∨ khi ≤ kv.1) →
      ((entriesOf (e0 :: rest)).map Prod.fst).Nodup →
      builtin_lookup (.num p) (.vec (e0 :: rest)) =
        .num (vhi * ((p - klo) / (khi - klo)) +
          vlo * (1 - (p - klo) / (khi - klo)))) ∧
    (∀ (p klo vlo a0 b0 : ℚ) (e0 : Value) (rest : List Value),
      getVec2 e0 = some (a0, b0) →
      (klo, vlo) ∈ entriesOf (e0 :: rest) →
      (∀ kv ∈ entriesOf (e0 :: rest), klo ≤ kv.1) → p < klo →
      ((entriesOf (e0 :: rest)).map Prod.fst).Nodup →
      builtin_lookup (.num p) (.vec (e0 :: rest)) = .num vlo) ∧
    (∀ (p khi vhi a0 b0 : ℚ) (e0 : Value) (rest : List Value),
      getVec2 e0 = some (a0, b0) →
      (khi, vhi) ∈ entriesOf (e0 :: rest) →
      (∀ kv ∈ entriesOf (e0 :: rest), kv.1 ≤ khi) → khi < p →
      ((entriesOf (e0 :: rest)).map Prod.fst).Nodup →
      builtin_lookup (.num p) (.vec (e0 :: rest)) = .num vhi) ∧
    builtin_lookup (.num 5)
        (.vec [.vec [.num 0, .num 0], .vec [.num 10, .num 10]]) =
      .num 5 := by
  refine ⟨?_, ?_, ?_, ?_⟩
  · intro p klo vlo khi vhi a0 b0 e0 rest h1 h2 h3 h4 h5 h6 h7
    exact lookup_interior p klo vlo khi vhi a0 b0 e0 rest h1 h2 h3 h4 h5 h6 h7
  · intro p klo vlo a0 b0 e0 rest h1 h2 h3 h4 h5
    exact lookup_below p klo vlo a0 b0 e0 rest h1 h2 h3 h4 h5
  · intro p khi vhi a0 b0 e0 rest h1 h2 h3 h4 h5
    exact lookup_above p khi vhi a0 b0 e0 rest h1 h2 h3 h4 h5
  · show Value.num (10 * ((5 - 0) / (10 - 0)) + 0 * (1 - (5 - 0) / (10 - 0))) =
      Value.num 5
    norm_num

/-- **C5 — witness**: each conjunct of the lookup theorem applied to the
concrete table `[[0,0],[10,10]]` at keys `5`, `-1` and `11`. -/
theorem C5_witness :
    builtin_lookup (.num 5)
        (.vec [.vec [.num 0, .num 0], .vec [.num 10, .num 10]]) =
      .num (10 * ((5 - 0) / (10 - 0)) + 0 * (1 - (5 - 0) / (10 - 0))) ∧
    builtin_lookup (.num (-1))
        (.vec [.vec [.num 0, .num 0], .vec [.num 10, .num 10]]) = .num 0 ∧
    builtin_lookup (.num 11)
        (.vec [.vec [.num 0, .num 0], .vec [.num 10, .num 10]]) =
      .num 10 :=
  ⟨C5_theorem.1 5 0 0 10 10 0 0 (.vec [.num 0, .num 0])
      [.vec [.num 10, .num 10]] rfl (by decide) (by decide) (by norm_num)
      (by norm_num) (by decide) (by decide),
    C5_theorem.2.1 (-1) 0 0 0 0 (.vec [.num 0, .num 0])
      [.vec [.num 10, .num 10]] rfl (by decide) (by decide) (by norm_num)
      (by decide),
    C5_theorem.2.2.1 11 10 10 0 0 (.vec [.num 0, .num 0])
      [.vec [.num 10, .num 10]] rfl (by decide) (by decide) (by norm_num)
      (by decide)⟩

/-! ## `MainWindow::compileCSG` (mainwin.cc): CSG product generation.
The CSG term type is an abstract type `α` (the `CSGNode` tree built by the
external `CSGTreeEvaluator`); the external `CSGTreeNormalizer` is the
parameter `normalizeAt` (constructed with its element-count limit), and
`CSGProducts::size()` is the parameter `psize`. -/

/-- Diagnostics of `compileCSG` relevant to the claims. -/
inductive Diag : Type where
  | warnNormalizeEmpty : Diag
  | uiWarnTooManyElements : Diag
  | uiWarnOpenCSGDisabled : Diag
  | normalizedCountMsg : Diag
  | finishedMsg : Diag
deriving DecidableEq

/-- Outcome of one `compileCSG` pass. -/
structure CSGOut (α : Type) : Type where
  rootProducts : Option (List α)
  highlightsProducts : Option (List (Option α))
  backgroundProducts : Option (List (Option α))
  usedNormalizeLimit : ℕ
  opencsgRendererBuilt : Bool
  thrownTogetherBuilt : Bool
  diags : List Diag

/-- `MainWindow::compileCSG()` from the normalization stage on: the
normalizer is constructed with `2 * Preferences "advanced/openCSGLimit"`; a
present CSG root is normalized — a null normalization clears the root
product set and emits a warning, a successful one imports the normalized
root; highlight and background term lists are normalized and imported
per-term when nonempty; finally the element-count check against the
un-doubled ceiling decides between the too-many-elements UI warnings and
building the OpenCSG renderer, and the pass runs to its final message. -/
def compileCSG {α : Type} (normalizeAt : ℕ → α → Option α)
    (psize : List α → ℕ) (openCSGLimit : ℕ) (csgRoot : Option α)
    (highlight_terms background_terms : List α) : CSGOut α :=
  let normalizelimit := 2 * openCSGLimit
  let rootDiag :=
    match csgRoot with
    | none => (none, [])
    | some t =>
      match normalizeAt normalizelimit t with
      | some nt => (some [nt], [])
      | none => (none, [Diag.warnNormalizeEmpty])
  let hp :=
    match highlight_terms with
    | [] => none
    | l => some (l.map (normalizeAt normalizelimit))
  let bp :=
    match background_terms with
    | [] => none
    | l => some (l.map (normalizeAt normalizelimit))
  let tooBig :=
    match rootDiag.1 with
    | some ps => decide (openCSGLimit < psize ps)
    | none => false
  { rootProducts := rootDiag.1
    highlightsProducts := hp
    backgroundProducts := bp
    usedNormalizeLimit := normalizelimit
    opencsgRendererBuilt := !tooBig
    thrownTogetherBuilt := true
    diags := rootDiag.2 ++
      (if tooBig then [Diag.uiWarnTooManyElements, Diag.uiWarnOpenCSGDisabled]
       else [Diag.normalizedCountMsg]) ++ [Diag.finishedMsg] }

/-! ## GUI lock and the preview/render/reload entry points (mainwin.cc:
`GuiLocker`, `MainWindow::actionRenderPreview`, `MainWindow::actionRender`,
`MainWindow::actionReloadRenderPreview`).  The `compile(...)` call made by
each entry point (which may pump events re-entrantly) is the abstract
parameter `cf`. -/

/-- Qt slots relevant to the entry points. -/
inductive Slot : Type where
  | csgRender : Slot
  | csgReloadRender : Slot
  | cgalRender : Slot
  | renderPreview : Slot
deriving DecidableEq

/-- The GUI-side state touched by the three compile/render entry points:
the `GuiLocker` counter, the static `preview_requested` flag of
`actionRenderPreview`, the auto-reload timer, the `afterCompileSlot` field,
the zero-delay `QTimer::singleShot` queue, and a trace of the `compile`
invocations that were actually started (recording their `reload` flag). -/
structure GuiSt : Type where
  guiLocked : ℕ
  previewRequested : Bool
  autoReloadActive : Bool
  afterCompileSlot : Option Slot
  scheduled : List Slot
  compileStarted : List Bool
deriving DecidableEq

/-- `MainWindow::actionRenderPreview` (mainwin.cc): sets the static
`preview_requested`, returns if the GUI is locked, otherwise locks, clears
the flag, starts `compile(false, ...)`, and afterwards — if the flag was
set again while compiling — schedules one deferred re-invocation of itself
via `QTimer::singleShot(0, ...)`. -/
def actionRenderPreview (cf : GuiSt → GuiSt) (s : GuiSt) : GuiSt :=
  let s := { s with previewRequested := true }
  if s.guiLocked ≠ 0 then s
  else
    let s := { s with
      guiLocked := s.guiLocked + 1
      autoReloadActive := false
      previewRequested := false
      afterCompileSlot := some .csgRender
      compileStarted := s.compileStarted ++ [false] }
    let s := cf s
    if s.previewRequested then
      { s with scheduled := s.scheduled ++ [Slot.renderPreview] }
    else s

/-- `MainWindow::actionRender` (mainwin.cc): returns immediately if the GUI
is locked, otherwise locks and starts `compile(false)`. -/
def actionRender (cf : GuiSt → GuiSt) (s : GuiSt) : GuiSt :=
  if s.guiLocked ≠ 0 then s
  else
    cf { s with
      guiLocked := s.guiLocked + 1
      autoReloadActive := false
      afterCompileSlot := some .cgalRender
      compileStarted := s.compileStarted ++ [false] }

/-- `MainWindow::actionReloadRenderPreview` (mainwin.cc): returns
immediately if the GUI is locked, otherwise locks and starts
`compile(true)`. -/
def actionReloadRenderPreview (cf : GuiSt → GuiSt) (s : GuiSt) : GuiSt :=
  if s.guiLocked ≠ 0 then s
  else
    cf { s with
      guiLocked := s.guiLocked + 1
      autoReloadActive := false
      afterCompileSlot := some .csgReloadRender
      compileStarted := s.compileStarted ++ [true] }

/-! ## The reload / wait-after-reload polling loop (mainwin.cc:
`MainWindow::compile`, `MainWindow::waitAfterReload`).  The external
dependency resolver `root_module->handleDependencies()` is the timestamp
stream `hd` (indexed by call number), and the per-call
"should compile the top level" outcome (file changed on disk, first
compile, includes changed) is the stream `stp`.  `hasExt` is
`root_module->hasIncludes() || root_module->usesLibraries()`. -/

/-- Control position of the reload loop: inside `compile(reload, forcedone)`,
waiting on the `waitAfterReloadTimer`, or completed via
`compileDone(didchange)`. -/
inductive CPhase : Type where
  | compiling : Bool → Bool → CPhase
  | waiting : CPhase
  | done : Bool → CPhase
deriving DecidableEq

/-- State of the reload loop: phase, the `deps_mtime` watermark, and the
index of the next `handleDependencies` call. -/
structure ReloadSt : Type where
  phase : CPhase
  d : ℕ
  k : ℕ
deriving DecidableEq

/-- One step of the reload loop.  In `compile(reload, forcedone)`:
`handleDependencies` is consulted; a strictly newer timestamp advances the
watermark and marks `didcompile`; with `reload && didcompile` and external
dependencies present, the pass starts the wait-after-reload timer instead
of completing; otherwise it completes via `compileDone(didcompile ||
forcedone)`.  In `waitAfterReload`: a strictly newer timestamp advances the
watermark and restarts the timer; otherwise `compile(true, true)` is
invoked.  `done` is absorbing. -/
def reloadStep (hd : ℕ → ℕ) (stp : ℕ → Bool) (hasExt : Bool) :
    ReloadSt → ReloadSt
  | ⟨.compiling r f, d, k⟩ =>
    let mtime := hd k
    let d' := if d < mtime then mtime else d
    let didcompile := stp k || decide (d < mtime)
    if r && didcompile && hasExt then ⟨.waiting, d', k + 1⟩
    else ⟨.done (didcompile || f), d', k + 1⟩
  | ⟨.waiting, d, k⟩ =>
    let mtime := hd k
    if d < mtime then ⟨.waiting, mtime, k + 1⟩
    else ⟨.compiling true true, d, k + 1⟩
  | ⟨.done b, d, k⟩ => ⟨.done b, d, k⟩

/-! ## `MainWindow::report_func` (mainwin.cc): the throttled progress
callback.  Qt's `QElapsedTimer::hasExpired(t)` is `elapsed() > t`; time is
in milliseconds. -/

/-- State visible to `report_func`: the throttle timer's start instant, the
progress widget's current value, and whether the user pressed cancel. -/
structure ProgressSt : Type where
  throttleStart : ℕ
  widgetValue : ℕ
  canceled : Bool
deriving DecidableEq

/-- `MainWindow::report_func` at wall-clock instant `now`, for progress
`mark` out of `count`: inside the 200 ms window it does nothing; otherwise
it restarts the throttle timer, raises the widget value to
`min(mark*1000/count, 999)` if that is an increase, and then checks the
cancel flag — `none` models the thrown `ProgressCancelException` that
aborts the pass. -/
def report_func (count now mark : ℕ) (st : ProgressSt) : Option ProgressSt :=
  if 200 < now - st.throttleStart then
    let st1 := { st with throttleStart := now }
    let v := mark * 1000 / count
    let permille := if v < 1000 then v else 999
    let st2 :=
      if st1.widgetValue < permille then { st1 with widgetValue := permille }
      else st1
    if st.canceled then none else some st2
  else some st

/-! ### Inner-loop lemmas: behaviour on an element with no match -/

lemma strLoop_nomatch (c nrpm : ℕ) (tbl : List ℕ) (h : ∀ t ∈ tbl, t ≠ c) :
    ∀ j mc rv, strLoop c nrpm tbl j mc rv = (mc, rv, none) := by
  induction tbl with
  | nil => intro j mc rv; rfl
  | cons t ts ih =>
    intro j mc rv
    rw [strLoop, if_neg (h t (List.mem_cons_self t ts))]
    exact ih (fun x hx => h x (List.mem_cons_of_mem _ hx)) _ _ _

lemma tblLoop_nomatch (cellChar : Value → ℕ) (c nrpm icn : ℕ) (tbl : List Value)
    (h : ∀ row ∈ tbl, icn < (toVec row).length ∧
      cellChar ((toVec row).getD icn .undefined) ≠ c) :
    ∀ j mc rv, tblLoop cellChar c nrpm icn tbl j mc rv = some (mc, rv, none) := by
  induction tbl with
  | nil => intro j mc rv; rfl
  | cons row rs ih =>
    intro j mc rv
    obtain ⟨hlen, hch⟩ := h row (List.mem_cons_self row rs)
    rw [tblLoop, if_neg (by omega), if_neg hch]
    exact ih (fun x hx => h x (List.mem_cons_of_mem _ hx)) _ _ _

lemma vecLoop_nomatch (veq : Value → Value → Bool) (fv : Value) (nrpm icn : ℕ)
    (tbl : List Value) (h : ∀ se ∈ tbl, rowMatch veq icn fv se = false) :
    ∀ j mc rv, vecLoop veq fv nrpm icn tbl j mc rv = (mc, rv, none) := by
  induction tbl with
  | nil => intro j mc rv; rfl
  | cons se t ih =>
    intro j mc rv
    rw [vecLoop, if_neg (by rw [h se (List.mem_cons_self se t)]; exact Bool.false_ne_true)]
    exact ih (fun x hx => h x (List.mem_cons_of_mem _ hx)) _ _ _

/-- **C4 — counterexample.** The claim asserts that with
`num_returns_per_match == 1` an element of the search input with no match
appends an empty result vector also for the string-table overload.  At
`search("e", "abcdabcd", 1)` (code points: find `[101]`, table
`[97,98,99,100,97,98,99,100]`) the string overload appends nothing at all —
the result is `[]`, not `[[]]` — so the claim fails at this input. -/
theorem C4_counterexample :
    strSearch [97, 98, 99, 100, 97, 98, 99, 100] 1 [101] = [] ∧
    ([] : List Value) ≠ [Value.vec []] :=
  ⟨rfl, by simp⟩

/-- **C4 — amended.** With `num_returns_per_match == 1`, only the
vector-of-find-values path of `builtin_search` appends an empty result
vector for an element with no match; the string-table and row-table
overloads append nothing at all for such an element.  In the other
return-count modes every element, matched or not, appends its (possibly
empty) per-element result vector. -/
theorem C4_theorem :
    (∀ (tbl : List ℕ) (c : ℕ) (cs : List ℕ), (∀ t ∈ tbl, t ≠ c) →
      strSearch tbl 1 (c :: cs) = strSearch tbl 1 cs) ∧
    (∀ (cellChar : Value → ℕ) (tbl : List Value) (icn c : ℕ) (cs : List ℕ),
      (∀ row ∈ tbl, icn < (toVec row).length ∧
        cellChar ((toVec row).getD icn .undefined) ≠ c) →
      tblSearch cellChar tbl 1 icn (c :: cs) = tblSearch cellChar tbl 1 icn cs) ∧
    (∀ (veq : Value → Value → Bool) (tbl : List Value) (icn : ℕ) (fv : Value)
      (fs : List Value), (∀ se ∈ tbl, rowMatch veq icn fv se = false) →
      vecSearch veq tbl 1 icn (fv :: fs) =
        Value.vec [] :: vecSearch veq tbl 1 icn fs) ∧
    (∀ (tbl : List ℕ) (c nrpm : ℕ) (cs : List ℕ), nrpm ≠ 1 → (∀ t ∈ tbl, t ≠ c) →
      strSearch tbl nrpm (c :: cs) = Value.vec [] :: strSearch tbl nrpm cs) := by
  refine ⟨?_, ?_, ?_, ?_⟩
  · intro tbl c cs h
    rw [strSearch, strLoop_nomatch c 1 tbl h]
    simp
  · intro cellChar tbl icn c cs h
    rw [tblSearch, tblLoop_nomatch cellChar c 1 icn tbl h]
    cases htr : tblSearch cellChar tbl 1 icn cs <;> simp
  · intro veq tbl icn fv fs h
    rw [vecSearch, vecLoop_nomatch veq fv 1 icn tbl h]
    simp
  · intro tbl c nrpm cs hn h
    rw [strSearch, strLoop_nomatch c nrpm tbl h]
    have : nrpm = 0 ∨ 1 < nrpm := by omega
    simp [if_pos this]

/-- **C4 — witness** for the amended theorem, at concrete inputs. -/
theorem C4_witness :
    strSearch [97] 1 [98] = strSearch [97] 1 [] ∧
    tblSearch (fun _ => 0) [Value.vec [Value.str []]] 1 0 [5] =
      tblSearch (fun _ => 0) [Value.vec [Value.str []]] 1 0 [] ∧
    vecSearch (fun _ _ => false) [Value.num 1] 1 0 [Value.undefined] =
      Value.vec [] :: vecSearch (fun _ _ => false) [Value.num 1] 1 0 [] ∧
    strSearch [97] 0 [98] = Value.vec [] :: strSearch [97] 0 [] := by
  refine ⟨C4_theorem.1 [97] 98 [] (by decide),
    C4_theorem.2.1 (fun _ => 0) [Value.vec [Value.str []]] 0 5 [] ?_,
    C4_theorem.2.2.1 (fun _ _ => false) [Value.num 1] 0 Value.undefined [] ?_,
    C4_theorem.2.2.2 [97] 98 0 [] (by decide) (by decide)⟩
  · intro row hr
    rw [List.mem_singleton] at hr
    subst hr
    exact ⟨by simp [toVec], by simp⟩
  · intro se _
    simp [rowMatch]

/-- **C9.** `search("a","abcdabcd")` with the default returns-per-match of 1
returns `[0]`, and `search("a","abcdabcd",0)` returns `[[0,4]]`; characters
are compared per unicode code point (the third conjunct evaluates the
documented multi-byte example `search("🂡aЛ","a🂡Л🂡a🂡Л🂡a",0)`, whose result
indices count code points, not bytes). -/
theorem C9_theorem : ∀ (veq : Value → Value → Bool) (cellChar : Value → ℕ),
    builtin_search veq cellChar
        [Value.str [97], Value.str [97, 98, 99, 100, 97, 98, 99, 100]] =
      Value.vec [Value.num 0] ∧
    builtin_search veq cellChar
        [Value.str [97], Value.str [97, 98, 99, 100, 97, 98, 99, 100],
          Value.num 0] =
      Value.vec [Value.vec [Value.num 0, Value.num 4]] ∧
    strSearch [97, 127137, 1051, 127137, 97, 127137, 1051, 127137, 97] 0
        [127137, 97, 1051] =
      [Value.vec [Value.num 1, Value.num 3, Value.num 5, Value.num 7],
       Value.vec [Value.num 0, Value.num 4, Value.num 8],
       Value.vec [Value.num 2, Value.num 6]] := by
  intro veq cellChar
  exact ⟨rfl, rfl, rfl⟩

/-! ### min/max and rands theorems -/

lemma rands_clampMin_congr {σ : Type} (sample : ℚ → ℚ → σ → ℚ × σ)
    (seedFn : DVal → σ) (detS lessS : σ) {a b : DVal}
    (h : clampMin a = clampMin b) (v1 v2 : DVal) (v3 : Option DVal) :
    builtin_rands sample seedFn detS lessS a v1 v2 v3 =
      builtin_rands sample seedFn detS lessS b v1 v2 v3 := by
  unfold builtin_rands
  rw [h]

lemma rands_clampMax_congr {σ : Type} (sample : ℚ → ℚ → σ → ℚ × σ)
    (seedFn : DVal → σ) (detS lessS : σ) (v0 : DVal) {a b : DVal}
    (h : clampMax a = clampMax b) (v2 : DVal) (v3 : Option DVal) :
    builtin_rands sample seedFn detS lessS v0 a v2 v3 =
      builtin_rands sample seedFn detS lessS v0 b v2 v3 := by
  unfold builtin_rands
  rw [h]

lemma minLoop_break (v : Value) (hv : ∀ q : ℚ, v ≠ Value.num q) :
    ∀ (qs : List ℚ) (val : ℚ) (t : List Value),
      minLoop val (qs.map Value.num ++ v :: t) = none := by
  intro qs
  induction qs with
  | nil =>
    intro val t
    cases v with
    | num q => exact absurd rfl (hv q)
    | undefined => rfl
    | bool b => rfl
    | str s => rfl
    | vec l => rfl
  | cons q qs ih => intro val t; exact ih _ t

lemma maxLoop_break (v : Value) (hv : ∀ q : ℚ, v ≠ Value.num q) :
    ∀ (qs : List ℚ) (val : ℚ) (t : List Value),
      maxLoop val (qs.map Value.num ++ v :: t) = none := by
  intro qs
  induction qs with
  | nil =>
    intro val t
    cases v with
    | num q => exact absurd rfl (hv q)
    | undefined => rfl
    | bool b => rfl
    | str s => rfl
    | vec l => rfl
  | cons q qs ih => intro val t; exact ih _ t

/-- **C10.** `min` (and symmetrically `max`) called on a single empty-vector
argument returns no element and raises no error: it emits the
parameter-conversion warning and returns the undefined value — the same
`quit` recovery path taken when a later argument is not a number (third and
fourth conjuncts, for an arbitrary run of numeric arguments before the first
non-number). -/
theorem C10_theorem :
    (∀ vecMin : List Value → Value,
      builtin_min vecMin [Value.vec []] = (Value.undefined, some Warn.argConvert)) ∧
    (∀ vecMax : List Value → Value,
      builtin_max vecMax [Value.vec []] = (Value.undefined, some Warn.argConvert)) ∧
    (∀ (vecMin : List Value → Value) (x : ℚ) (qs : List ℚ) (v : Value)
      (t : List Value), (∀ q : ℚ, v ≠ Value.num q) →
      builtin_min vecMin (Value.num x :: (qs.map Value.num ++ v :: t)) =
        (Value.undefined, some Warn.argConvert)) ∧
    (∀ (vecMax : List Value → Value) (x : ℚ) (qs : List ℚ) (v : Value)
      (t : List Value), (∀ q : ℚ, v ≠ Value.num q) →
      builtin_max vecMax (Value.num x :: (qs.map Value.num ++ v :: t)) =
        (Value.undefined, some Warn.argConvert)) := by
  refine ⟨fun _ => rfl, fun _ => rfl, ?_, ?_⟩
  · intro vecMin x qs v t hv
    simp only [builtin_min, minLoop_break v hv qs x t]
  · intro vecMax x qs v t hv
    simp only [builtin_max, maxLoop_break v hv qs x t]

/-- **C10 — witness**: the empty-vector path and the non-number path at
concrete inputs. -/
theorem C10_witness :
    builtin_min (fun _ => Value.undefined) [Value.vec []] =
      (Value.undefined, some Warn.argConvert) ∧
    builtin_max (fun _ => Value.undefined) [Value.vec []] =
      (Value.undefined, some Warn.argConvert) ∧
    builtin_min (fun _ => Value.undefined) [Value.num 1, Value.bool true] =
      (Value.undefined, some Warn.argConvert) ∧
    builtin_max (fun _ => Value.undefined) [Value.num 1, Value.bool true] =
      (Value.undefined, some Warn.argConvert) :=
  ⟨C10_theorem.1 _, C10_theorem.2.1 _,
    C10_theorem.2.2.1 _ 1 [] (Value.bool true) [] (fun q h => by cases h),
    C10_theorem.2.2.2 _ 1 [] (Value.bool true) [] (fun q h => by cases h)⟩

/-- **C6.** `rands`: a non-finite minimum (resp. maximum) endpoint behaves
exactly as the clamped finite endpoint `-DBL_MAX/2` (resp. `DBL_MAX/2`);
descending endpoints are swapped; equal endpoints degrade to a constant fill
that never consults the sampler and leaves both generator states untouched;
and `rands(0,0,3)` returns `[0,0,0]`, with a repeated call (threading the
returned generator states) returning the identical result. -/
theorem C6_theorem :
    (∀ (σ : Type) (sample : ℚ → ℚ → σ → ℚ × σ) (seedFn : DVal → σ)
      (detS lessS : σ) (d v1 v2 : DVal) (v3 : Option DVal),
      d = .posInf ∨ d = .negInf ∨ d = .nan →
      builtin_rands sample seedFn detS lessS d v1 v2 v3 =
        builtin_rands sample seedFn detS lessS (.finite (-dblMaxHalf)) v1 v2 v3) ∧
    (∀ (σ : Type) (sample : ℚ → ℚ → σ → ℚ × σ) (seedFn : DVal → σ)
      (detS lessS : σ) (v0 d v2 : DVal) (v3 : Option DVal),
      d = .posInf ∨ d = .negInf ∨ d = .nan →
      builtin_rands sample seedFn detS lessS v0 d v2 v3 =
        builtin_rands sample seedFn detS lessS v0 (.finite dblMaxHalf) v2 v3) ∧
    (∀ (σ : Type) (sample : ℚ → ℚ → σ → ℚ × σ) (seedFn : DVal → σ)
      (detS lessS : σ) (a b : ℚ) (v2 : DVal) (v3 : Option DVal), b < a →
      builtin_rands sample seedFn detS lessS (.finite a) (.finite b) v2 v3 =
        builtin_rands sample seedFn detS lessS (.finite b) (.finite a) v2 v3) ∧
    (∀ (σ : Type) (sample : ℚ → ℚ → σ → ℚ × σ) (seedFn : DVal → σ)
      (detS lessS : σ) (q : ℚ) (v2 : DVal),
      builtin_rands sample seedFn detS lessS (.finite q) (.finite q) v2 none =
        (.vec (List.replicate (randsCount v2) (.num q)), detS, lessS)) ∧
    (∀ (σ : Type) (sample : ℚ → ℚ → σ → ℚ × σ) (seedFn : DVal → σ)
      (detS lessS : σ) (q : ℚ) (v2 sv : DVal),
      builtin_rands sample seedFn detS lessS (.finite q) (.finite q) v2
          (some sv) =
        (.vec (List.replicate (randsCount v2) (.num q)), seedFn sv, lessS)) ∧
    (∀ (σ : Type) (sample : ℚ → ℚ → σ → ℚ × σ) (seedFn : DVal → σ)
      (detS lessS : σ),
      (builtin_rands sample seedFn detS lessS
          (.finite 0) (.finite 0) (.finite 3) none).1 =
        Value.vec [Value.num 0, Value.num 0, Value.num 0] ∧
      (builtin_rands sample seedFn
          (builtin_rands sample seedFn detS lessS
            (.finite 0) (.finite 0) (.finite 3) none).2.1
          (builtin_rands sample seedFn detS lessS
            (.finite 0) (.finite 0) (.finite 3) none).2.2
          (.finite 0) (.finite 0) (.finite 3) none).1 =
        (builtin_rands sample seedFn detS lessS
          (.finite 0) (.finite 0) (.finite 3) none).1) := by
  refine ⟨?_, ?_, ?_, ?_, ?_, ?_⟩
  · rintro σ sample seedFn detS lessS d v1 v2 v3 (rfl | rfl | rfl) <;>
      exact rands_clampMin_congr sample seedFn detS lessS rfl v1 v2 v3
  · rintro σ sample seedFn detS lessS v0 d v2 v3 (rfl | rfl | rfl) <;>
      exact rands_clampMax_congr sample seedFn detS lessS v0 rfl v2 v3
  · intro σ sample seedFn detS lessS a b v2 v3 hba
    have hab : ¬ a < b := not_lt.mpr hba.le
    unfold builtin_rands
    rw [show clampMin (.finite a) = a from rfl,
        show clampMin (.finite b) = b from rfl,
        show clampMax (.finite a) = a from rfl,
        show clampMax (.finite b) = b from rfl]
    dsimp only
    simp only [if_pos hba, if_neg hab]
  · intro σ sample seedFn detS lessS q v2
    unfold builtin_rands
    rw [show clampMin (.finite q) = q from rfl,
        show clampMax (.finite q) = q from rfl]
    dsimp only
    simp only [ite_self, if_true]
  · intro σ sample seedFn detS lessS q v2 sv
    unfold builtin_rands
    rw [show clampMin (.finite q) = q from rfl,
        show clampMax (.finite q) = q from rfl]
    dsimp only
    simp only [ite_self, if_true]
  · intro σ sample seedFn detS lessS
    exact ⟨rfl, rfl⟩

/-- **C6 — witness** for the hypothesis-bearing conjuncts, at a concrete
sampler and generator state type. -/
theorem C6_witness :
    builtin_rands (fun _ _ s => ((0 : ℚ), s + 1)) (fun _ => (0 : ℕ)) 0 0
        .nan (.finite 1) (.finite 2) none =
      builtin_rands (fun _ _ s => ((0 : ℚ), s + 1)) (fun _ => (0 : ℕ)) 0 0
        (.finite (-dblMaxHalf)) (.finite 1) (.finite 2) none ∧
    builtin_rands (fun _ _ s => ((0 : ℚ), s + 1)) (fun _ => (0 : ℕ)) 0 0
        (.finite 1) .posInf (.finite 2) none =
      builtin_rands (fun _ _ s => ((0 : ℚ), s + 1)) (fun _ => (0 : ℕ)) 0 0
        (.finite 1) (.finite dblMaxHalf) (.finite 2) none ∧
    builtin_rands (fun _ _ s => ((0 : ℚ), s + 1)) (fun _ => (0 : ℕ)) 0 0
        (.finite 7) (.finite 3) (.finite 2) none =
      builtin_rands (fun _ _ s => ((0 : ℚ), s + 1)) (fun _ => (0 : ℕ)) 0 0
        (.finite 3) (.finite 7) (.finite 2) none ∧
    builtin_rands (fun _ _ s => ((0 : ℚ), s + 1)) (fun _ => (0 : ℕ)) 0 0
        (.finite 5) (.finite 5) (.finite 2) none =
      (.vec (List.replicate (randsCount (.finite 2)) (.num 5)), 0, 0) :=
  ⟨C6_theorem.1 ℕ _ _ 0 0 .nan _ _ none (Or.inr (Or.inr rfl)),
    C6_theorem.2.1 ℕ _ _ 0 0 _ .posInf _ none (Or.inl rfl),
    C6_theorem.2.2.1 ℕ _ _ 0 0 7 3 _ none (by norm_num),
    C6_theorem.2.2.2.1 ℕ _ _ 0 0 5 _⟩

/-! ### Pipeline theorems (mainwin.cc) -/

/-- **C1.** In a preview compile pass with a CSG root present, a null result
from the normalizer is handled as a defined empty result: the root product
set is cleared (`none`), the empty-tree warning diagnostic is emitted, and
the pass still runs to its final "Compile and preview finished." message. -/
theorem C1_theorem : ∀ (α : Type) (normalizeAt : ℕ → α → Option α)
    (psize : List α → ℕ) (lim : ℕ) (t : α) (hl bg : List α),
    normalizeAt (2 * lim) t = none →
    (compileCSG normalizeAt psize lim (some t) hl bg).rootProducts = none ∧
    Diag.warnNormalizeEmpty ∈
      (compileCSG normalizeAt psize lim (some t) hl bg).diags ∧
    Diag.finishedMsg ∈
      (compileCSG normalizeAt psize lim (some t) hl bg).diags := by
  intro α normalizeAt psize lim t hl bg h
  refine ⟨?_, ?_, ?_⟩ <;> simp [compileCSG, h]

/-- **C1 — witness** at a concrete always-overflowing normalizer. -/
theorem C1_witness :
    (compileCSG (fun _ _ => (none : Option ℕ)) (fun _ => 0) 1 (some 0) []
      []).rootProducts = none ∧
    Diag.warnNormalizeEmpty ∈
      (compileCSG (fun _ _ => (none : Option ℕ)) (fun _ => 0) 1 (some 0) []
        []).diags ∧
    Diag.finishedMsg ∈
      (compileCSG (fun _ _ => (none : Option ℕ)) (fun _ => 0) 1 (some 0) []
        []).diags :=
  C1_theorem ℕ (fun _ _ => none) (fun _ => 0) 1 0 [] [] rfl

/-- **C8.** The element-count limit handed to the CSG normalizer on a
preview compile is exactly twice the configured
`advanced/openCSGLimit` ceiling. -/
theorem C8_theorem : ∀ (α : Type) (normalizeAt : ℕ → α → Option α)
    (psize : List α → ℕ) (openCSGLimit : ℕ) (csgRoot : Option α)
    (hl bg : List α),
    (compileCSG normalizeAt psize openCSGLimit csgRoot
      hl bg).usedNormalizeLimit = 2 * openCSGLimit :=
  fun _ _ _ _ _ _ _ => rfl

/-- **C2 — counterexample.** The claim holds for `actionRender` and
`actionReloadRenderPreview` but fails for `actionRenderPreview`: a preview
request arriving while the GUI lock is held *does* have an observable effect
(it raises the static `preview_requested` flag — first conjunct), and a
preview request raised during an in-flight preview pass *is* queued for
later execution via `QTimer::singleShot` (second conjunct: the in-flight
pass, whose `compile` step re-entrantly receives a second preview request,
ends with that request scheduled). -/
theorem C2_counterexample :
    actionRenderPreview id ⟨1, false, false, none, [], []⟩ ≠
      (⟨1, false, false, none, [], []⟩ : GuiSt) ∧
    (actionRenderPreview (actionRenderPreview id)
        ⟨0, false, false, none, [], []⟩).scheduled = [Slot.renderPreview] := by
  refine ⟨by decide, by decide⟩

/-- **C2 — amended.** While the in-flight compile token is held,
`actionRender` and `actionReloadRenderPreview` requests are refused outright
with no observable effect; an `actionRenderPreview` request starts no
compilation but records itself in the static `preview_requested` flag, and
the in-flight preview pass schedules exactly one deferred re-invocation of
the preview action after its compile step when that flag was raised (and
none otherwise). -/
theorem C2_theorem :
    (∀ (cf : GuiSt → GuiSt) (s : GuiSt), s.guiLocked ≠ 0 →
      actionRender cf s = s) ∧
    (∀ (cf : GuiSt → GuiSt) (s : GuiSt), s.guiLocked ≠ 0 →
      actionReloadRenderPreview cf s = s) ∧
    (∀ (cf : GuiSt → GuiSt) (s : GuiSt), s.guiLocked ≠ 0 →
      actionRenderPreview cf s = { s with previewRequested := true }) ∧
    (∀ (cf : GuiSt → GuiSt) (s : GuiSt), s.guiLocked = 0 →
      (actionRenderPreview cf s).scheduled =
        (cf { s with
          guiLocked := s.guiLocked + 1
          autoReloadActive := false
          previewRequested := false
          afterCompileSlot := some .csgRender
          compileStarted := s.compileStarted ++ [false] }).scheduled ++
        (if (cf { s with
            guiLocked := s.guiLocked + 1
            autoReloadActive := false
            previewRequested := false
            afterCompileSlot := some .csgRender
            compileStarted := s.compileStarted ++ [false] }).previewRequested
          then [Slot.renderPreview] else [])) := by
  refine ⟨?_, ?_, ?_, ?_⟩
  · intro cf s h
    rw [actionRender, if_pos h]
  · intro cf s h
    rw [actionReloadRenderPreview, if_pos h]
  · intro cf s h
    simp [actionRenderPreview, h]
  · intro cf s h
    simp [actionRenderPreview, h]
    split <;> simp

/-- **C2 — witness** for the amended theorem's conjuncts at concrete
states. -/
theorem C2_witness :
    actionRender id ⟨2, false, false, none, [], []⟩ =
      (⟨2, false, false, none, [], []⟩ : GuiSt) ∧
    actionReloadRenderPreview id ⟨1, true, false, none, [], []⟩ =
      (⟨1, true, false, none, [], []⟩ : GuiSt) ∧
    actionRenderPreview id ⟨1, false, false, none, [], []⟩ =
      (⟨1, true, false, none, [], []⟩ : GuiSt) ∧
    (actionRenderPreview id ⟨0, false, false, none, [], []⟩).scheduled = [] := by
  refine ⟨C2_theorem.1 id _ (by decide), C2_theorem.2.1 id _ (by decide),
    ?_, ?_⟩
  · have h := C2_theorem.2.2.1 id (⟨1, false, false, none, [], []⟩ : GuiSt)
      (by decide)
    simpa using h
  · have h := C2_theorem.2.2.2 id (⟨0, false, false, none, [], []⟩ : GuiSt)
      rfl
    simpa using h

/-- **C3.** During a reload compile pass with external dependencies
(`hasIncludes || usesLibraries`): a dependency timestamp newer than the
watermark diverts the pass into the wait-after-reload polling loop instead
of completing (1); the polling loop re-invokes `handleDependencies`,
re-arming itself while the timestamp keeps increasing (2) and handing over
to the final `compile(true, true)` exactly when it no longer increases (3);
a reload-cascade compile step can only complete when its own dependency
check saw no newer timestamp (and no top-level recompile trigger) (4); and
when timestamps are bounded the polling loop always reaches the final
compile hand-over (5). -/
theorem C3_theorem :
    (∀ (hd : ℕ → ℕ) (stp : ℕ → Bool) (f : Bool) (d k : ℕ), d < hd k →
      reloadStep hd stp true ⟨.compiling true f, d, k⟩ =
        ⟨.waiting, hd k, k + 1⟩) ∧
    (∀ (hd : ℕ → ℕ) (stp : ℕ → Bool) (hasExt : Bool) (d k : ℕ), d < hd k →
      reloadStep hd stp hasExt ⟨.waiting, d, k⟩ =
        ⟨.waiting, hd k, k + 1⟩) ∧
    (∀ (hd : ℕ → ℕ) (stp : ℕ → Bool) (hasExt : Bool) (d k : ℕ),
      ¬ d < hd k →
      reloadStep hd stp hasExt ⟨.waiting, d, k⟩ =
        ⟨.compiling true true, d, k + 1⟩) ∧
    (∀ (hd : ℕ → ℕ) (stp : ℕ → Bool) (f b : Bool) (d k d' k' : ℕ),
      reloadStep hd stp true ⟨.compiling true f, d, k⟩ =
        ⟨.done b, d', k'⟩ →
      hd k ≤ d ∧ stp k = false) ∧
    (∀ (hd : ℕ → ℕ) (stp : ℕ → Bool) (hasExt : Bool) (B d k : ℕ),
      (∀ i, hd i ≤ B) →
      ∃ m, ((reloadStep hd stp hasExt)^[m] ⟨.waiting, d, k⟩).phase =
        .compiling true true) := by
  refine ⟨?_, ?_, ?_, ?_, ?_⟩
  · intro hd stp f d k h
    simp [reloadStep, h]
  · intro hd stp hasExt d k h
    simp [reloadStep, h]
  · intro hd stp hasExt d k h
    simp [reloadStep, h]
  · intro hd stp f b d k d' k' h
    cases hstp : stp k <;> by_cases hlt : d < hd k <;>
      simp [reloadStep, hstp, hlt] at h
    exact ⟨le_of_not_lt hlt, rfl⟩
  · intro hd stp hasExt B d k hB
    have key : ∀ n d k, B - d < n →
        ∃ m, ((reloadStep hd stp hasExt)^[m] ⟨.waiting, d, k⟩).phase =
          CPhase.compiling true true := by
      intro n
      induction n with
      | zero => intro d k h; omega
      | succ n ih =>
        intro d k h
        by_cases hlt : d < hd k
        · obtain ⟨m, hm⟩ := ih (hd k) (k + 1) (by have := hB k; omega)
          refine ⟨m + 1, ?_⟩
          rw [Function.iterate_succ_apply,
            show reloadStep hd stp hasExt ⟨.waiting, d, k⟩ =
              ⟨.waiting, hd k, k + 1⟩ from by simp [reloadStep, hlt]]
          exact hm
        · exact ⟨1, by simp [reloadStep, hlt]⟩
    exact key (B - d + 1) d k (by omega)

/-- **C3 — witness**: each conjunct at concrete timestamp streams. -/
theorem C3_witness :
    reloadStep (fun _ => 5) (fun _ => false) true
        ⟨.compiling true false, 3, 0⟩ = ⟨.waiting, 5, 1⟩ ∧
    reloadStep (fun _ => 5) (fun _ => false) true ⟨.waiting, 3, 1⟩ =
      ⟨.waiting, 5, 2⟩ ∧
    reloadStep (fun _ => 5) (fun _ => false) true ⟨.waiting, 7, 2⟩ =
      ⟨.compiling true true, 7, 3⟩ ∧
    ((0 : ℕ) ≤ 0 ∧ (fun (_ : ℕ) => false) 0 = false) ∧
    ∃ m, ((reloadStep (fun _ => 0) (fun _ => false) true)^[m]
      ⟨.waiting, 0, 0⟩).phase = CPhase.compiling true true := by
  refine ⟨C3_theorem.1 _ _ false 3 0 (by norm_num),
    C3_theorem.2.1 _ _ true 3 1 (by norm_num),
    C3_theorem.2.2.1 _ _ true 7 2 (by norm_num),
    C3_theorem.2.2.2.1 (fun _ => 0) (fun _ => false) true true 0 0 0 1
      (by decide),
    C3_theorem.2.2.2.2 (fun _ => 0) (fun _ => false) true 0 0 0
      (fun _ => le_refl 0)⟩

/-- **C7.** The progress callback: inside the 200 ms throttle window a call
leaves the state untouched (so the displayed value changes at most once per
200 ms) (1); whenever a call changes the displayed value, the throttle had
expired and is restarted at the call instant (2); the displayed value is
monotonically non-decreasing across calls (3); and a cancel request observed
inside the callback aborts the pass, producing no result (4). -/
theorem C7_theorem :
    (∀ (count now mark : ℕ) (st : ProgressSt),
      now - st.throttleStart ≤ 200 →
      report_func count now mark st = some st) ∧
    (∀ (count now mark : ℕ) (st st' : ProgressSt),
      report_func count now mark st = some st' →
      st'.widgetValue ≠ st.widgetValue →
      200 < now - st.throttleStart ∧ st'.throttleStart = now) ∧
    (∀ (count now mark : ℕ) (st st' : ProgressSt),
      report_func count now mark st = some st' →
      st.widgetValue ≤ st'.widgetValue) ∧
    (∀ (count now mark : ℕ) (st : ProgressSt),
      st.canceled = true → 200 < now - st.throttleStart →
      report_func count now mark st = none) := by
  refine ⟨?_, ?_, ?_, ?_⟩
  · intro count now mark st h
    simp [report_func, Nat.not_lt.mpr h]
  · intro count now mark st st' h hne
    by_cases hexp : 200 < now - st.throttleStart
    · refine ⟨hexp, ?_⟩
      by_cases hcan : st.canceled
      · simp [report_func, hexp, hcan] at h
      · by_cases hwid : st.widgetValue <
            (if mark * 1000 / count < 1000 then mark * 1000 / count else 999)
        · simp [report_func, hexp, hcan, hwid] at h
          rw [← h]
        · simp [report_func, hexp, hcan, hwid] at h
          rw [← h] at hne
          exact absurd rfl hne
    · simp [report_func, hexp] at h
      rw [← h] at hne
      exact absurd rfl hne
  · intro count now mark st st' h
    by_cases hexp : 200 < now - st.throttleStart
    · by_cases hcan : st.canceled
      · simp [report_func, hexp, hcan] at h
      · by_cases hwid : st.widgetValue <
            (if mark * 1000 / count < 1000 then mark * 1000 / count else 999)
        · simp [report_func, hexp, hcan, hwid] at h
          rw [← h]
          exact hwid.le
        · simp [report_func, hexp, hcan, hwid] at h
          rw [← h]
    · simp [report_func, hexp] at h
      rw [← h]
  · intro count now mark st hcan hexp
    simp [report_func, hexp, hcan]

/-- **C7 — witness**: the four callback behaviours at concrete instants. -/
theorem C7_witness :
    report_func 10 100 5 ⟨0, 0, false⟩ = some ⟨0, 0, false⟩ ∧
    (200 < 300 - (⟨0, 0, false⟩ : ProgressSt).throttleStart ∧
      (⟨300, 500, false⟩ : ProgressSt).throttleStart = 300) ∧
    (⟨0, 0, false⟩ : ProgressSt).widgetValue ≤
      (⟨300, 500, false⟩ : ProgressSt).widgetValue ∧
    report_func 10 300 5 ⟨0, 0, true⟩ = none := by
  refine ⟨C7_theorem.1 10 100 5 ⟨0, 0, false⟩ (by norm_num),
    C7_theorem.2.1 10 300 5 ⟨0, 0, false⟩ ⟨300, 500, false⟩ (by decide)
      (by decide),
    C7_theorem.2.2.1 10 300 5 ⟨0, 0, false⟩ ⟨300, 500, false⟩ (by decide),
    C7_theorem.2.2.2 10 300 5 ⟨0, 0, true⟩ rfl (by norm_num)⟩

end OpenSCADSpec
